import Mathlib

/-!
Verification of the mayflower build orchestration engine
(src/mayflower/build/common.py and src/mayflower/common.py) against its
natural-language specification.

The Python code is shallowly embedded: pure fragments become Lean
functions, the concurrent scheduler of Builder.build becomes an explicit
transition system on a scheduler state, exceptions become Except, and
external effects (the MD5 digest, the gpg subprocess, HTTP fetches) are
parameters of the embedding.
-/

/-- Exceptions raised by the mayflower code base.  MayflowerException with
the message "md5 checksum verification failed" is the only error the
claims need to distinguish. -/
inductive MfError
  | checksumMismatch
deriving DecidableEq, Repr

/-- Embedding of verify_checksum (src/mayflower/build/common.py lines
118-138).  The file on disk is represented by its byte contents and the
MD5 hex-digest function is a parameter of the embedding.  The source:
if the checksum is None it logs and returns False; otherwise it raises
MayflowerException when the given checksum differs from the digest of the
file's contents, and returns True when they agree. -/
def verify_checksum (md5 : List Nat → String) (file : List Nat)
    (checksum : Option String) : Except MfError Bool :=
  match checksum with
  | none => Except.ok false
  | some c =>
    if c ≠ md5 file then Except.error MfError.checksumMismatch
    else Except.ok true

/-- Download descriptor (class Download, src/mayflower/build/common.py
lines 275-302): name, url template, optional signature, destination
directory, version and optional md5 checksum. -/
structure DownloadRec where
  name : String
  url_tpl : String
  signature : Option String
  destination : String
  version : String
  md5sum : Option String
deriving DecidableEq, Repr

/-- Download.url (line 304-306): the url template with the version
placeholder substituted, modelling str.format for templates whose only
placeholder is the version. -/
def DownloadRec.url (d : DownloadRec) : String :=
  d.url_tpl.replace "\x7bversion\x7d" d.version

/-- Last slash-separated component of a url, modelling
url.rsplit("/", 1)[1] and os.path.basename for slash-containing urls. -/
def basenameOf (url : String) : String :=
  (url.splitOn "/").getLastD ""

/-- Download.filepath (lines 308-311): destination directory joined with
the remote basename. -/
def DownloadRec.filepath (d : DownloadRec) : String :=
  d.destination ++ "/" ++ basenameOf d.url

/-- The observable effect of one call to download_url: which url is
fetched and into which directory. -/
structure FetchCall where
  url : String
  dest : String
deriving DecidableEq, Repr

/-- Download.fetch_file (lines 317-324): download_url(self.url,
self.destination). -/
def DownloadRec.fetch_file (d : DownloadRec) : FetchCall :=
  { url := d.url, dest := d.destination }

/-- Download.fetch_signature (lines 326-333): despite its name and its
version argument, the body is download_url(self.url, self.destination),
identical to fetch_file. -/
def DownloadRec.fetch_signature (d : DownloadRec) (_version : String) :
    FetchCall :=
  { url := d.url, dest := d.destination }

/-- The local path returned by download_url (src/mayflower/common.py line
235 and 260): os.path.join(dest, os.path.basename(url)). -/
def download_url_local (url dest : String) : String :=
  dest ++ "/" ++ basenameOf url

/-- Download.validate_signature (lines 347-368).  The gpg subprocess is a
parameter giving, for a signature and archive path, whether the
gpg --verify run exits zero (runcmd raises MayflowerException exactly on a
non-zero exit, and that exception is caught and turned into False).  With
no signature configured it logs and returns False. -/
def Download.validate_signature (gpg : String → String → Bool)
    (archive : String) (signature : Option String) : Bool :=
  match signature with
  | none => false
  | some sig => gpg sig archive

/-- Download.validate_md5sum (lines 370-387): calls verify_checksum,
ignores its boolean result, returns True unless verify_checksum raised
MayflowerException, in which case it logs and returns False. -/
def Download.validate_md5sum (md5 : List Nat → String) (archive : List Nat)
    (md5sum : Option String) : Bool :=
  match verify_checksum md5 archive md5sum with
  | Except.ok _ => true
  | Except.error _ => false

/-- Download.__call__ (lines 389-406): fetches the file (fetch_file may
raise, e.g. after download_url exhausts its retries - the fetched
parameter carries that outcome and the downloaded bytes), then ANDs the
results of the configured checks into valid: the signature check runs
only when a signature is configured, the md5 check only when a checksum
is configured, and the call returns valid. -/
def Download.call (gpg : String → String → Bool) (md5 : List Nat → String)
    (fetched : Except Unit (List Nat)) (d : DownloadRec) :
    Except Unit Bool :=
  match fetched with
  | Except.error e => Except.error e
  | Except.ok contents =>
    let valid := true
    let valid :=
      match d.signature with
      | none => valid
      | some _ =>
        valid && Download.validate_signature gpg d.filepath d.signature
    let valid :=
      match d.md5sum with
      | none => valid
      | some _ => valid && Download.validate_md5sum md5 contents d.md5sum
    Except.ok valid

/-- Exit code of a multiprocessing.Process whose target is a Download:
the return value of __call__ is discarded, so the process exits 0 unless
an exception escaped the call (uncaught exceptions make the worker exit
non-zero). -/
def downloadProcExit (result : Except Unit Bool) : Nat :=
  match result with
  | Except.ok _ => 0
  | Except.error _ => 1

/-- Failure collection of Builder.download_files (lines 755-776): the
join loop appends the name of every download process whose exitcode is
non-zero; exits is the (name, exitcode) sequence in completion order. -/
def collectFails (exits : List (String × Nat)) : List String :=
  (exits.filter (fun p => p.2 != 0)).map Prod.fst

/-- Outcome of Builder.download_files after the join loop: the failure
list and the process exit (sys.exit(1) when any download process failed,
normal return otherwise). -/
def download_files_outcome (exits : List (String × Nat)) :
    List String × Option Nat :=
  let fails := collectFails exits
  (fails, if fails.isEmpty then none else some 1)

/-- Tail of Builder.build (lines 843-857): after the join loop, when the
failure list is non-empty the names are reported and, only if the cleanup
flag passed into build is set, self.cleanup() removes the shared install
root, then sys.exit(1); on success self.cleanup() again runs only when
the flag is set and the function returns normally.  Result: (whether the
shared install root was deleted, the exit raised). -/
def buildFinish (fails : List String) (cleanup : Bool) : Bool × Option Nat :=
  if !fails.isEmpty then (cleanup, some 1)
  else (cleanup, none)

/-- Retry loop of download_url (src/mayflower/common.py lines 236-245).
attempt n gives the result of the n-th urlopen call (some handle on
success, none for an HTTPError).  The trace records every fetch and every
sleep; the loop body has no break, so a successful attempt does not leave
the loop. -/
inductive FetchEvent
  | fetch (n : Nat)
  | sleep (secs : Nat)
deriving DecidableEq, Repr

def download_url_loop (attempt : Nat → Option Nat) :
    Nat → Nat → Option Nat → List FetchEvent →
    List FetchEvent × Except Unit (Option Nat)
  | 0, _, fin, trace => (trace, Except.ok fin)
  | remaining + 1, n, fin, trace =>
    match attempt (n + 1) with
    | some handle =>
      download_url_loop attempt remaining (n + 1) (some handle)
        (trace ++ [FetchEvent.fetch (n + 1)])
    | none =>
      if n + 1 = 3 then (trace ++ [FetchEvent.fetch (n + 1)], Except.error ())
      else
        download_url_loop attempt remaining (n + 1) fin
          (trace ++ [FetchEvent.fetch (n + 1), FetchEvent.sleep (n + 1 + 1 * 10)])

/-- download_url's fetching phase: the loop from n = 0 with no handle
yet (remaining = 3 - n counts the iterations the guard n < 3 still
allows); the result carries the last bound handle (the body that follows
reads from fin and returns the local path). -/
def download_url_run (attempt : Nat → Option Nat) :
    List FetchEvent × Except Unit (Option Nat) :=
  download_url_loop attempt 3 0 none []

/-- Glob matching as used by create_archive via glob.fnmatch.fnmatch on a
POSIX walk: a star matches any (possibly empty) sequence of characters
including slashes, a question mark matches one character, anything else
matches itself.  The archive patterns of the claims use only stars and
literal characters. -/
def fnmatchChars : List Char → List Char → Bool
  | [], s => s.isEmpty
  | '*' :: ps, s => s.tails.any (fun t => fnmatchChars ps t)
  | '?' :: ps, s =>
    match s with
    | [] => false
    | _ :: cs => fnmatchChars ps cs
  | p :: ps, s =>
    match s with
    | [] => false
    | c :: cs => p == c && fnmatchChars ps cs

def fnmatch (nm pat : String) : Bool :=
  fnmatchChars pat.data nm.data

/-- Result of create_archive: the relative paths added to the tar and the
lines written to the log file. -/
structure ArchiveResult where
  added : List String
  logLines : List String
deriving DecidableEq, Repr

/-- create_archive (src/mayflower/build/common.py lines 1112-1143): after
two header writes it walks the install tree (files is the walk's
enumeration of relative file paths), matches "/" / relpath against each
glob until one matches, adds the file and logs "Adding ..." on a match,
otherwise logs "Skipping ...". -/
def create_archive (tarName : String) (cwd : String) (files : List String)
    (globs : List String) : ArchiveResult :=
  let headerLines :=
    ["CURRENT DIR " ++ cwd, "Creating archive " ++ tarName ++ "\n"]
  files.foldl
    (fun acc relpath =>
      if globs.any (fun g => fnmatch ("/" ++ relpath) g) then
        { added := acc.added ++ [relpath],
          logLines := acc.logLines ++ ["Adding " ++ relpath ++ "\n"] }
      else
        { acc with
          logLines := acc.logLines ++ ["Skipping " ++ relpath ++ "\n"] })
    { added := [], logLines := headerLines }

/-- Registry record stored by Builder.add (lines 600-623): the build
function (represented by an opaque identifier), the wait_on dependency
list, and the optional download descriptor. -/
structure Recipe where
  build_func : Nat
  wait_on : List String
  download : Option DownloadRec
deriving DecidableEq, Repr

/-- Builder.add: stores the recipe under the step name (registry as an
association list in insertion order; a fresh name is appended). -/
def Builder.add (recipies : List (String × Recipe)) (name : String)
    (build_func : Nat) (wait_on : List String)
    (download : Option DownloadRec) : List (String × Recipe) :=
  if recipies.any (fun p => p.1 == name) then
    recipies.map (fun p =>
      if p.1 == name then
        (name, { build_func := build_func, wait_on := wait_on,
                 download := download })
      else p)
  else
    recipies ++
      [(name, { build_func := build_func, wait_on := wait_on,
                download := download })]

/-- The in-place dependency pruning of Builder.build's setup (lines
803-806): for each name of a copy of wait_on, names not in the active
step list are removed from the list itself.  Because
kwargs = dict(self.recipies[name]) is a shallow copy, the list mutated
here is the very list stored in the registry. -/
def removeOutOfSteps (steps : List String) : List String → List String →
    List String
  | [], cur => cur
  | d :: rest, cur =>
    removeOutOfSteps steps rest (if d ∈ steps then cur else cur.erase d)

/-- Net effect of Builder.build's setup loop (lines 797-816) on the
registry: for every step of the run, the registered wait_on list has had
each out-of-run name removed in place; records of steps outside the run
are untouched. -/
def buildSetupRecipies (recipies : List (String × Recipe))
    (steps : List String) : List (String × Recipe) :=
  recipies.map (fun p =>
    if p.1 ∈ steps then
      (p.1, { p.2 with
              wait_on := removeOutOfSteps steps p.2.wait_on p.2.wait_on })
    else p)

/-- Claim C7: verify_checksum(file, None) returns false without raising;
verify_checksum(file, d) with d the MD5 hex digest of the file's contents
returns true; verify_checksum(file, d) with d different from that digest
raises MayflowerException instead of returning. -/
theorem C7_verify_checksum_cases (md5 : List Nat → String)
    (file : List Nat) (d : String) (hne : d ≠ md5 file) :
    verify_checksum md5 file none = Except.ok false ∧
    verify_checksum md5 file (some (md5 file)) = Except.ok true ∧
    verify_checksum md5 file (some d) =
      Except.error MfError.checksumMismatch := by
  refine ⟨rfl, ?_, ?_⟩ <;> simp [verify_checksum, hne]

/-- Witness for C7 at a concrete digest function, file and wrong digest. -/
theorem C7_verify_checksum_cases_witness :
    verify_checksum (fun _ => "d41d8cd9") [] none = Except.ok false ∧
    verify_checksum (fun _ => "d41d8cd9") [] (some "d41d8cd9") =
      Except.ok true ∧
    verify_checksum (fun _ => "d41d8cd9") [] (some "bad") =
      Except.error MfError.checksumMismatch :=
  C7_verify_checksum_cases (fun _ => "d41d8cd9") [] "bad" (by decide)

/-- Claim C4: Download.__call__ returns true iff every configured check
passed - the signature check must pass when a signature is configured and
the md5 check must pass when a checksum is configured - and a
configured-check failure produces a false return, not an escaping
exception (the result is always Except.ok once the fetch completed). -/
theorem C4_fetch_true_iff_checks (gpg : String → String → Bool)
    (md5 : List Nat → String) (contents : List Nat) (d : DownloadRec) :
    Download.call gpg md5 (Except.ok contents) d =
      Except.ok
        ((match d.signature with
          | none => true
          | some sig => gpg sig d.filepath) &&
         (match d.md5sum with
          | none => true
          | some c => decide (c = md5 contents))) := by
  have hval : ∀ c : String, Download.validate_md5sum md5 contents (some c) =
      decide (c = md5 contents) := by
    intro c
    by_cases hc : c = md5 contents <;>
      simp [Download.validate_md5sum, verify_checksum, hc]
  cases hs : d.signature <;> cases hm : d.md5sum <;>
    simp [Download.call, Download.validate_signature, hs, hm, hval]

/-- Counterexample to claim C3: a configured checksum that does not match
is not a hard error.  With digest function returning "realdigest" and a
configured checksum "configured", __call__ returns Except.ok false (the
MayflowerException is caught inside validate_md5sum), the download
process exits 0, the download phase of the run collects no failure and
does not abort; and a download with no configured checksum (and no
signature) yields validity true, not false. -/
theorem C3_checksum_counterexample :
    Download.call (fun _ _ => true) (fun _ => "realdigest")
        (Except.ok [0])
        { name := "python", url_tpl := "https://x/y.tar.xz",
          signature := none, destination := "dl", version := "1",
          md5sum := some "configured" } = Except.ok false ∧
    downloadProcExit
      (Download.call (fun _ _ => true) (fun _ => "realdigest")
        (Except.ok [0])
        { name := "python", url_tpl := "https://x/y.tar.xz",
          signature := none, destination := "dl", version := "1",
          md5sum := some "configured" }) = 0 ∧
    download_files_outcome [("python", 0)] = ([], none) ∧
    Download.call (fun _ _ => true) (fun _ => "realdigest")
        (Except.ok [0])
        { name := "python", url_tpl := "https://x/y.tar.xz",
          signature := none, destination := "dl", version := "1",
          md5sum := none } = Except.ok true := by
  refine ⟨?_, ?_, ?_, ?_⟩ <;> rfl

/-- Claim C3 as amended: a download whose configured checksum does not
match the recomputed digest has its checksum error caught inside
validate_md5sum, so __call__ returns false; the calling step is not
aborted - the download process exits 0 and the run's download phase
records no failure and does not exit non-zero.  A download with no
configured checksum skips the checksum check entirely: it contributes
nothing to validity, and with no signature configured either, the fetch
returns true. -/
theorem C3_checksum_soft_failure (gpg : String → String → Bool)
    (md5 : List Nat → String) (contents : List Nat) (d : DownloadRec)
    (c : String) (hm : d.md5sum = some c) (hne : c ≠ md5 contents) :
    Download.call gpg md5 (Except.ok contents) d = Except.ok false ∧
    downloadProcExit (Download.call gpg md5 (Except.ok contents) d) = 0 ∧
    download_files_outcome
      [(d.name,
        downloadProcExit (Download.call gpg md5 (Except.ok contents) d))] =
      ([], none) ∧
    (∀ d2 : DownloadRec, d2.md5sum = none → d2.signature = none →
      Download.call gpg md5 (Except.ok contents) d2 = Except.ok true) := by
  have hcall : Download.call gpg md5 (Except.ok contents) d =
      Except.ok false := by
    cases hs : d.signature <;>
      simp [Download.call, Download.validate_md5sum, verify_checksum, hs, hm,
            hne]
  refine ⟨hcall, ?_, ?_, ?_⟩
  · rw [hcall]; rfl
  · rw [hcall]; rfl
  · intro d2 h2m h2s
    simp [Download.call, h2m, h2s]

/-- Witness for the amended claim C3 at a concrete mismatching download. -/
theorem C3_checksum_soft_failure_witness :
    Download.call (fun _ _ => true) (fun _ => "realdigest")
        (Except.ok [0])
        { name := "python", url_tpl := "https://x/y.tar.xz",
          signature := none, destination := "dl", version := "1",
          md5sum := some "configured" } = Except.ok false ∧
    downloadProcExit
      (Download.call (fun _ _ => true) (fun _ => "realdigest")
        (Except.ok [0])
        { name := "python", url_tpl := "https://x/y.tar.xz",
          signature := none, destination := "dl", version := "1",
          md5sum := some "configured" }) = 0 ∧
    download_files_outcome
      [("python",
        downloadProcExit
          (Download.call (fun _ _ => true) (fun _ => "realdigest")
            (Except.ok [0])
            { name := "python", url_tpl := "https://x/y.tar.xz",
              signature := none, destination := "dl", version := "1",
              md5sum := some "configured" }))] = ([], none) ∧
    (∀ d2 : DownloadRec, d2.md5sum = none → d2.signature = none →
      Download.call (fun _ _ => true) (fun _ => "realdigest")
        (Except.ok [0]) d2 = Except.ok true) :=
  C3_checksum_soft_failure (fun _ _ => true) (fun _ => "realdigest") [0]
    { name := "python", url_tpl := "https://x/y.tar.xz",
      signature := none, destination := "dl", version := "1",
      md5sum := some "configured" } "configured" rfl (by decide)

/-- Counterexample to claim C5: with one failed step and the cleanup flag
unset, Builder.build exits 1 but does not delete the shared install root
(first component false), contradicting the claim that any failure causes
a full cleanup regardless of the flag. -/
theorem C5_cleanup_counterexample :
    buildFinish ["openssl"] false = (false, some 1) := rfl

/-- Claim C5 as amended: after the scheduler's join loop, a run with a
non-empty failure list reports exit 1 and a fully successful run returns
normally; in both cases deletion of the shared install root is controlled
solely by the cleanup flag passed into the run. -/
theorem C5_cleanup_flag_controlled (fails : List String) (cleanup : Bool) :
    buildFinish fails cleanup =
      (cleanup, if fails.isEmpty then none else some 1) := by
  cases h : fails.isEmpty <;> simp [buildFinish, h]

/-- Claim C6 at its failing input, exhibiting the missing break: with a
url whose every urlopen attempt succeeds, download_url still performs all
three fetches instead of stopping after the first success (bug), and with
every attempt failing it sleeps increasing backoffs (11 then 12, from
n + 1 * 10) and raises the HTTP error after the third failure. -/
theorem C6_download_url_refetches_after_success :
    download_url_run (fun _ => some 7) =
      ([FetchEvent.fetch 1, FetchEvent.fetch 2, FetchEvent.fetch 3],
       Except.ok (some 7)) ∧
    download_url_run (fun _ => none) =
      ([FetchEvent.fetch 1, FetchEvent.sleep 11, FetchEvent.fetch 2,
        FetchEvent.sleep 12, FetchEvent.fetch 3],
       Except.error ()) := by
  constructor <;> rfl

/-- Claim C8 at its failing input: registering step a with the
out-of-run dependency name b and then running build(steps=[a]) mutates
the registered record in place - b is removed from a's stored wait_on
list (dict(...) in build is a shallow copy, so the pruning loop edits the
registry's own list), so the registry after setup differs from the
registry as registered. -/
theorem C8_wait_on_mutated :
    buildSetupRecipies (Builder.add [] "a" 0 ["b"] none) ["a"] ≠
      Builder.add [] "a" 0 ["b"] none ∧
    buildSetupRecipies (Builder.add [] "a" 0 ["b"] none) ["a"] =
      [("a", { build_func := 0, wait_on := [], download := none })] := by
  constructor <;> decide

/-- Claim C9: create_archive with patterns ["*.so", "/bin/py*"] over a
tree holding exactly lib/x.so, bin/python3 and share/doc.txt adds the
first two to the archive, skips the third, and writes one decision log
line per file. -/
theorem C9_archive_scenario :
    create_archive "x86_64-linux-gnu.tar.xz" "/work"
        ["lib/x.so", "bin/python3", "share/doc.txt"]
        ["*.so", "/bin/py*"] =
      { added := ["lib/x.so", "bin/python3"],
        logLines := ["CURRENT DIR /work",
                     "Creating archive x86_64-linux-gnu.tar.xz\n",
                     "Adding lib/x.so\n", "Adding bin/python3\n",
                     "Skipping share/doc.txt\n"] } := by
  decide

/-- Claim C10: Download.fetch_signature ignores its version argument and
behaves exactly like fetch_file - it issues the same download_url call
(the resolved artifact url into the destination directory) and hence
returns the same local artifact path; no separate signature file is
fetched. -/
theorem C10_fetch_signature_is_fetch_file (d : DownloadRec)
    (version : String) :
    d.fetch_signature version = d.fetch_file ∧
    (d.fetch_signature version).url = d.url ∧
    (d.fetch_signature version).dest = d.destination ∧
    download_url_local (d.fetch_signature version).url
        (d.fetch_signature version).dest =
      download_url_local d.fetch_file.url d.fetch_file.dest :=
  ⟨rfl, rfl, rfl, rfl⟩

/-! The build scheduler (Builder.build, src/mayflower/build/common.py
lines 778-857, together with the child-side wait of Builder.run lines
640-641).  One multiprocessing.Process per requested step; cross-process
communication is one Event per step plus exit-status polling.  The
embedding is a small-step transition system: child transitions (a blocked
child observes its event and starts its build function; a running build
function returns, making the process exit with code 0 on normal return
and non-zero when Builder.run caught an exception) interleave with the
parent's join-loop body, which is sequential in the parent and therefore
a single atomic transition here. -/

/-- Status of one step's process.  killed records a process terminated by
the parent (exitcode -15, non-zero); its argument remembers whether the
build function had already been invoked when the process was killed. -/
inductive PState
  | blocked
  | building
  | exited (ok : Bool)
  | killed (ranBuild : Bool)
deriving DecidableEq, Repr

/-- A run configuration: the requested step list, the registered
dependency (wait_on) names per step, and the outcome each step's build
function would produce (true = Builder.run returns normally, exit 0). -/
structure BuildCfg where
  steps : List String
  deps : String → List String
  buildOk : String → Bool

/-- The run-restricted dependency list of a step (lines 803-806):
wait_on names not in the requested step list are dropped. -/
def runDeps (cfg : BuildCfg) (name : String) : List String :=
  (cfg.deps name).filter (fun d => decide (d ∈ cfg.steps))

/-- Scheduler state: the per-step Events, the parent's waits lists, each
process status, the names already popped from the parent's processes
dict, and the parent's failure list. -/
structure BState where
  events : String → Bool
  waits : String → List String
  pstate : String → PState
  reaped : List String
  fails : List String

/-- State after the setup loop (lines 797-816): every step has an Event,
set exactly when its run-restricted wait list is empty; waits holds the
run-restricted dependency lists; every process has been started and is
blocked in Builder.run's event poll; nothing reaped, nothing failed. -/
def initState (cfg : BuildCfg) : BState :=
  { events := fun n => decide (runDeps cfg n = [])
    waits := fun n => runDeps cfg n
    pstate := fun _ => PState.blocked
    reaped := []
    fails := [] }

/-- Effect of processes[name].terminate() (line 837): a process still in
its event poll dies before its build function runs; one inside its build
function is killed mid-build; a process that already exited keeps its
exit status (terminate is a no-op on a dead process). -/
def terminateP : PState → PState
  | PState.blocked => PState.killed false
  | PState.building => PState.killed true
  | p => p

/-- Lines 834-839 of the join loop for one entry name of waits: if the
reaped process D is in waits[name], on failure a not-yet-reaped name is
terminated (name in processes), then D is removed from waits[name]. -/
def processTerm (D : String) (ok : Bool) (n : String) (s : BState) :
    BState :=
  if D ∈ s.waits n then
    { s with
      pstate :=
        Function.update s.pstate n
          (if ok = false ∧ n ∉ s.reaped then terminateP (s.pstate n)
           else s.pstate n),
      waits := Function.update s.waits n ((s.waits n).erase D) }
  else s

/-- Lines 840-841: any name whose waits list is empty and whose event is
not yet set gets its event set. -/
def processEvent (n : String) (s : BState) : BState :=
  if s.waits n = [] ∧ s.events n = false then
    { s with events := Function.update s.events n true }
  else s

/-- One iteration of the for name in waits loop (lines 833-841). -/
def processName (D : String) (ok : Bool) (n : String) (s : BState) :
    BState :=
  processEvent n (processTerm D ok n s)

/-- The whole for name in waits loop, over the step names in insertion
order. -/
def reapLoop (D : String) (ok : Bool) : List String → BState → BState
  | [], s => s
  | n :: ns, s => reapLoop D ok ns (processName D ok n s)

/-- The join-loop body for one finished process D (lines 825-841):
processes.pop, the failure record, then the for name in waits loop. -/
def reapUpdate (cfg : BuildCfg) (D : String) (ok : Bool) (s : BState) :
    BState :=
  reapLoop D ok cfg.steps
    { s with
      reaped := s.reaped ++ [D],
      fails := if ok then s.fails else s.fails ++ [D] }

/-- The exit status the parent observes for a process: a process that
ran its build function to completion exits 0 iff Builder.run returned
normally; a terminated process has a non-zero exitcode; a live process
has none. -/
def exitOf : PState → Option Bool
  | PState.exited ok => some ok
  | PState.killed _ => some false
  | _ => none

/-- Whether the step's build function has been invoked. -/
def buildInvoked : PState → Bool
  | PState.blocked => false
  | PState.building => true
  | PState.exited _ => true
  | PState.killed ranBuild => ranBuild

/-- Whether the process has terminated. -/
def doneB : PState → Bool
  | PState.exited _ => true
  | PState.killed _ => true
  | _ => false

/-- Interleaved execution of Builder.build after setup: a blocked child
whose event is set leaves the poll of Builder.run and invokes its build
function; a running build function finishes, its process exiting 0 on
normal return; the parent observes one finished process and runs the
join-loop body for it. -/
inductive BStep (cfg : BuildCfg) : BState → BState → Prop
  | start (s : BState) (S : String) (hS : S ∈ cfg.steps)
      (hb : s.pstate S = PState.blocked) (he : s.events S = true) :
      BStep cfg s
        { s with pstate := Function.update s.pstate S PState.building }
  | finish (s : BState) (S : String) (hS : S ∈ cfg.steps)
      (hb : s.pstate S = PState.building) :
      BStep cfg s
        { s with
          pstate :=
            Function.update s.pstate S (PState.exited (cfg.buildOk S)) }
  | reap (s : BState) (D : String) (ok : Bool) (hD : D ∈ cfg.steps)
      (hnr : D ∉ s.reaped) (hex : exitOf (s.pstate D) = some ok) :
      BStep cfg s (reapUpdate cfg D ok s)

/-- States the scheduler can reach from the post-setup state. -/
def Reachable (cfg : BuildCfg) (s : BState) : Prop :=
  Relation.ReflTransGen (BStep cfg) (initState cfg) s

/-- The join loop while processes: has ended - every step's process has
been reaped. -/
def Terminal (cfg : BuildCfg) (s : BState) : Prop :=
  ∀ n ∈ cfg.steps, n ∈ s.reaped

/-- Transitive dependency within the active run: B waits (directly or
through a chain of in-run steps) on A. -/
inductive TransDep (cfg : BuildCfg) : String → String → Prop
  | direct {B A : String} : A ∈ runDeps cfg B → TransDep cfg B A
  | step {B C A : String} : C ∈ runDeps cfg B → TransDep cfg C A →
      TransDep cfg B A

/-- Value of waits[n] after the join-loop body for D processed n. -/
def waitsAfter (D : String) (w : List String) : List String :=
  if D ∈ w then w.erase D else w

/-- Value of pstate n after the join-loop body for D processed n, where
r is the reaped list at that moment (D already popped). -/
def pstateAfter (D : String) (ok : Bool) (r : List String) (n : String)
    (w : List String) (p : PState) : PState :=
  if D ∈ w ∧ ok = false ∧ n ∉ r then terminateP p else p

/-! Effect lemmas: each join-loop iteration touches only the entry of
the name it processes, plus nothing in reaped and fails, which lets the
whole loop be characterised component-wise. -/

lemma processTerm_reaped (D : String) (ok : Bool) (n : String)
    (s : BState) : (processTerm D ok n s).reaped = s.reaped := by
  unfold processTerm; split <;> rfl

lemma processTerm_fails (D : String) (ok : Bool) (n : String)
    (s : BState) : (processTerm D ok n s).fails = s.fails := by
  unfold processTerm; split <;> rfl

lemma processTerm_events (D : String) (ok : Bool) (n m : String)
    (s : BState) : (processTerm D ok n s).events m = s.events m := by
  unfold processTerm; split <;> rfl

lemma processTerm_waits_ne (D : String) (ok : Bool) {n m : String}
    (s : BState) (h : m ≠ n) :
    (processTerm D ok n s).waits m = s.waits m := by
  unfold processTerm; split
  · exact Function.update_noteq h _ _
  · rfl

lemma processTerm_pstate_ne (D : String) (ok : Bool) {n m : String}
    (s : BState) (h : m ≠ n) :
    (processTerm D ok n s).pstate m = s.pstate m := by
  unfold processTerm; split
  · exact Function.update_noteq h _ _
  · rfl

lemma processTerm_waits_self (D : String) (ok : Bool) (n : String)
    (s : BState) :
    (processTerm D ok n s).waits n = waitsAfter D (s.waits n) := by
  unfold processTerm waitsAfter; split
  · simp only [Function.update_same]
  · rfl

lemma processTerm_pstate_self (D : String) (ok : Bool) (n : String)
    (s : BState) :
    (processTerm D ok n s).pstate n =
      pstateAfter D ok s.reaped n (s.waits n) (s.pstate n) := by
  unfold processTerm pstateAfter
  by_cases h1 : D ∈ s.waits n
  · simp only [if_pos h1, Function.update_same]
    by_cases h2 : ok = false ∧ n ∉ s.reaped
    · rw [if_pos h2, if_pos ⟨h1, h2⟩]
    · rw [if_neg h2, if_neg (fun hc => h2 ⟨hc.2.1, hc.2.2⟩)]
  · rw [if_neg h1, if_neg (fun hc => h1 hc.1)]

lemma processEvent_reaped (n : String) (s : BState) :
    (processEvent n s).reaped = s.reaped := by
  unfold processEvent; split <;> rfl

lemma processEvent_fails (n : String) (s : BState) :
    (processEvent n s).fails = s.fails := by
  unfold processEvent; split <;> rfl

lemma processEvent_waits (n m : String) (s : BState) :
    (processEvent n s).waits m = s.waits m := by
  unfold processEvent; split <;> rfl

lemma processEvent_pstate (n m : String) (s : BState) :
    (processEvent n s).pstate m = s.pstate m := by
  unfold processEvent; split <;> rfl

lemma processEvent_events_ne {n m : String} (s : BState) (h : m ≠ n) :
    (processEvent n s).events m = s.events m := by
  unfold processEvent; split
  · exact Function.update_noteq h _ _
  · rfl

lemma processEvent_events_self (n : String) (s : BState) :
    (processEvent n s).events n =
      (if s.waits n = [] ∧ s.events n = false then true
       else s.events n) := by
  unfold processEvent; split
  · simp only [Function.update_same]
  · rfl

lemma processName_reaped (D : String) (ok : Bool) (n : String)
    (s : BState) : (processName D ok n s).reaped = s.reaped := by
  unfold processName; rw [processEvent_reaped, processTerm_reaped]

lemma processName_fails (D : String) (ok : Bool) (n : String)
    (s : BState) : (processName D ok n s).fails = s.fails := by
  unfold processName; rw [processEvent_fails, processTerm_fails]

lemma processName_events_ne (D : String) (ok : Bool) {n m : String}
    (s : BState) (h : m ≠ n) :
    (processName D ok n s).events m = s.events m := by
  unfold processName; rw [processEvent_events_ne _ h, processTerm_events]

lemma processName_waits_ne (D : String) (ok : Bool) {n m : String}
    (s : BState) (h : m ≠ n) :
    (processName D ok n s).waits m = s.waits m := by
  unfold processName; rw [processEvent_waits, processTerm_waits_ne _ _ _ h]

lemma processName_pstate_ne (D : String) (ok : Bool) {n m : String}
    (s : BState) (h : m ≠ n) :
    (processName D ok n s).pstate m = s.pstate m := by
  unfold processName; rw [processEvent_pstate, processTerm_pstate_ne _ _ _ h]

lemma processName_waits_self (D : String) (ok : Bool) (n : String)
    (s : BState) :
    (processName D ok n s).waits n = waitsAfter D (s.waits n) := by
  unfold processName; rw [processEvent_waits, processTerm_waits_self]

lemma processName_pstate_self (D : String) (ok : Bool) (n : String)
    (s : BState) :
    (processName D ok n s).pstate n =
      pstateAfter D ok s.reaped n (s.waits n) (s.pstate n) := by
  unfold processName; rw [processEvent_pstate, processTerm_pstate_self]

lemma processName_events_self (D : String) (ok : Bool) (n : String)
    (s : BState) :
    (processName D ok n s).events n =
      (if waitsAfter D (s.waits n) = [] ∧ s.events n = false then true
       else s.events n) := by
  unfold processName
  rw [processEvent_events_self, processTerm_waits_self, processTerm_events]

lemma reapLoop_reaped (D : String) (ok : Bool) (ns : List String)
    (s : BState) : (reapLoop D ok ns s).reaped = s.reaped := by
  induction ns generalizing s with
  | nil => rfl
  | cons m ms ih => rw [reapLoop, ih, processName_reaped]

lemma reapLoop_fails (D : String) (ok : Bool) (ns : List String)
    (s : BState) : (reapLoop D ok ns s).fails = s.fails := by
  induction ns generalizing s with
  | nil => rfl
  | cons m ms ih => rw [reapLoop, ih, processName_fails]

lemma reapLoop_events_notMem (D : String) (ok : Bool) {ns : List String}
    {n : String} (s : BState) (h : n ∉ ns) :
    (reapLoop D ok ns s).events n = s.events n := by
  induction ns generalizing s with
  | nil => rfl
  | cons m ms ih =>
    rw [reapLoop, ih _ (List.not_mem_of_not_mem_cons h),
        processName_events_ne _ _ _ (List.ne_of_not_mem_cons h)]

lemma reapLoop_waits_notMem (D : String) (ok : Bool) {ns : List String}
    {n : String} (s : BState) (h : n ∉ ns) :
    (reapLoop D ok ns s).waits n = s.waits n := by
  induction ns generalizing s with
  | nil => rfl
  | cons m ms ih =>
    rw [reapLoop, ih _ (List.not_mem_of_not_mem_cons h),
        processName_waits_ne _ _ _ (List.ne_of_not_mem_cons h)]

lemma reapLoop_pstate_notMem (D : String) (ok : Bool) {ns : List String}
    {n : String} (s : BState) (h : n ∉ ns) :
    (reapLoop D ok ns s).pstate n = s.pstate n := by
  induction ns generalizing s with
  | nil => rfl
  | cons m ms ih =>
    rw [reapLoop, ih _ (List.not_mem_of_not_mem_cons h),
        processName_pstate_ne _ _ _ (List.ne_of_not_mem_cons h)]

lemma reapLoop_waits_mem (D : String) (ok : Bool) {ns : List String}
    {n : String} (s : BState) (hnd : ns.Nodup) (h : n ∈ ns) :
    (reapLoop D ok ns s).waits n = waitsAfter D (s.waits n) := by
  induction ns generalizing s with
  | nil => cases h
  | cons m ms ih =>
    rw [reapLoop]
    rcases List.mem_cons.mp h with he | hm
    · subst he
      rw [reapLoop_waits_notMem _ _ _ (List.nodup_cons.mp hnd).1,
          processName_waits_self]
    · have hne : n ≠ m := by rintro rfl; exact (List.nodup_cons.mp hnd).1 hm
      rw [ih _ (List.nodup_cons.mp hnd).2 hm,
          processName_waits_ne _ _ _ hne]

lemma reapLoop_pstate_mem (D : String) (ok : Bool) {ns : List String}
    {n : String} (s : BState) (hnd : ns.Nodup) (h : n ∈ ns) :
    (reapLoop D ok ns s).pstate n =
      pstateAfter D ok s.reaped n (s.waits n) (s.pstate n) := by
  induction ns generalizing s with
  | nil => cases h
  | cons m ms ih =>
    rw [reapLoop]
    rcases List.mem_cons.mp h with he | hm
    · subst he
      rw [reapLoop_pstate_notMem _ _ _ (List.nodup_cons.mp hnd).1,
          processName_pstate_self]
    · have hne : n ≠ m := by rintro rfl; exact (List.nodup_cons.mp hnd).1 hm
      rw [ih _ (List.nodup_cons.mp hnd).2 hm,
          processName_pstate_ne _ _ _ hne, processName_reaped,
          processName_waits_ne _ _ _ hne]

lemma reapLoop_events_mem (D : String) (ok : Bool) {ns : List String}
    {n : String} (s : BState) (hnd : ns.Nodup) (h : n ∈ ns) :
    (reapLoop D ok ns s).events n =
      (if waitsAfter D (s.waits n) = [] ∧ s.events n = false then true
       else s.events n) := by
  induction ns generalizing s with
  | nil => cases h
  | cons m ms ih =>
    rw [reapLoop]
    rcases List.mem_cons.mp h with he | hm
    · subst he
      rw [reapLoop_events_notMem _ _ _ (List.nodup_cons.mp hnd).1,
          processName_events_self]
    · have hne : n ≠ m := by rintro rfl; exact (List.nodup_cons.mp hnd).1 hm
      rw [ih _ (List.nodup_cons.mp hnd).2 hm,
          processName_events_ne _ _ _ hne, processName_waits_ne _ _ _ hne]

lemma reapUpdate_reaped (cfg : BuildCfg) (D : String) (ok : Bool)
    (s : BState) : (reapUpdate cfg D ok s).reaped = s.reaped ++ [D] := by
  unfold reapUpdate; rw [reapLoop_reaped]

lemma reapUpdate_fails (cfg : BuildCfg) (D : String) (ok : Bool)
    (s : BState) :
    (reapUpdate cfg D ok s).fails =
      (if ok then s.fails else s.fails ++ [D]) := by
  unfold reapUpdate; rw [reapLoop_fails]

lemma reapUpdate_waits (cfg : BuildCfg) (D : String) (ok : Bool)
    (s : BState) (hnd : cfg.steps.Nodup) {S : String}
    (hS : S ∈ cfg.steps) :
    (reapUpdate cfg D ok s).waits S = waitsAfter D (s.waits S) := by
  unfold reapUpdate; rw [reapLoop_waits_mem _ _ _ hnd hS]

lemma reapUpdate_pstate (cfg : BuildCfg) (D : String) (ok : Bool)
    (s : BState) (hnd : cfg.steps.Nodup) {S : String}
    (hS : S ∈ cfg.steps) :
    (reapUpdate cfg D ok s).pstate S =
      pstateAfter D ok (s.reaped ++ [D]) S (s.waits S) (s.pstate S) := by
  unfold reapUpdate; rw [reapLoop_pstate_mem _ _ _ hnd hS]

lemma reapUpdate_events (cfg : BuildCfg) (D : String) (ok : Bool)
    (s : BState) (hnd : cfg.steps.Nodup) {S : String}
    (hS : S ∈ cfg.steps) :
    (reapUpdate cfg D ok s).events S =
      (if waitsAfter D (s.waits S) = [] ∧ s.events S = false then true
       else s.events S) := by
  unfold reapUpdate; rw [reapLoop_events_mem _ _ _ hnd hS]

/-! Small facts about the per-entry update shapes. -/

lemma mem_of_mem_waitsAfter {D n : String} {w : List String}
    (h : n ∈ waitsAfter D w) : n ∈ w := by
  unfold waitsAfter at h; split at h
  · exact List.mem_of_mem_erase h
  · exact h

lemma mem_waitsAfter_of_ne {D n : String} {w : List String} (hne : n ≠ D)
    (hn : n ∈ w) : n ∈ waitsAfter D w := by
  unfold waitsAfter; split
  · exact (List.mem_erase_of_ne hne).mpr hn
  · exact hn

lemma eq_of_not_mem_waitsAfter {D n : String} {w : List String}
    (hn : n ∈ w) (h : n ∉ waitsAfter D w) : n = D := by
  by_contra hne
  exact h (mem_waitsAfter_of_ne hne hn)

lemma waitsAfter_nil (D : String) : waitsAfter D [] = [] := by
  simp [waitsAfter]

lemma terminateP_ne_blocked (p : PState) :
    terminateP p ≠ PState.blocked := by
  cases p <;> simp [terminateP]

lemma terminateP_of_done {p : PState} (h : doneB p = true) :
    terminateP p = p := by
  cases p <;> simp_all [doneB, terminateP]

lemma buildInvoked_terminateP {p : PState}
    (h : buildInvoked (terminateP p) = true) : buildInvoked p = true := by
  cases p <;> simp_all [terminateP, buildInvoked]

lemma doneB_ne_blocked {p : PState} (h : doneB p = true) :
    p ≠ PState.blocked := by
  cases p <;> simp_all [doneB]

lemma pstateAfter_cases (D : String) (ok : Bool) (r : List String)
    (n : String) (w : List String) (p : PState) :
    (¬(D ∈ w ∧ ok = false ∧ n ∉ r) ∧ pstateAfter D ok r n w p = p) ∨
    (D ∈ w ∧ ok = false ∧ n ∉ r ∧
      pstateAfter D ok r n w p = terminateP p) := by
  unfold pstateAfter; split
  · rename_i hc
    exact Or.inr ⟨hc.1, hc.2.1, hc.2.2, rfl⟩
  · rename_i hc
    exact Or.inl ⟨hc, rfl⟩

lemma pstateAfter_of_mem_r {D : String} {ok : Bool} {r : List String}
    {n : String} {w : List String} {p : PState} (h : n ∈ r) :
    pstateAfter D ok r n w p = p := by
  unfold pstateAfter
  rw [if_neg (fun hc => hc.2.2 h)]

lemma exitOf_done {p : PState} {ok : Bool} (h : exitOf p = some ok) :
    doneB p = true := by
  cases p <;> simp_all [exitOf, doneB]

lemma exitOf_true {p : PState} (h : exitOf p = some true) :
    p = PState.exited true := by
  cases p <;> simp_all [exitOf]

lemma exitOf_false_ne {p : PState} (h : exitOf p = some false) :
    p ≠ PState.exited true := by
  cases p <;> simp_all [exitOf]

lemma runDeps_subset_steps {cfg : BuildCfg} {S d : String}
    (h : d ∈ runDeps cfg S) : d ∈ cfg.steps := by
  unfold runDeps at h
  simpa using List.of_mem_filter h

/-- The scheduler invariant: the facts about events, waits, reaped,
fails and process states that every reachable scheduler state satisfies.
In particular a step's event implies an empty wait list, every name
removed from a wait list has been reaped, and a step whose build
function has been invoked has all its run-restricted dependencies reaped
without failure. -/
structure SchedInv (cfg : BuildCfg) (s : BState) : Prop where
  waits_deps : ∀ S, S ∈ cfg.steps → ∀ n, n ∈ s.waits S →
    n ∈ runDeps cfg S
  removed_reaped : ∀ S, S ∈ cfg.steps → ∀ n, n ∈ runDeps cfg S →
    n ∉ s.waits S → n ∈ s.reaped
  event_of_empty : ∀ S, S ∈ cfg.steps → s.waits S = [] →
    s.events S = true
  empty_of_event : ∀ S, S ∈ cfg.steps → s.events S = true →
    s.waits S = []
  reaped_steps : ∀ n, n ∈ s.reaped → n ∈ cfg.steps
  reaped_done : ∀ n, n ∈ s.reaped → doneB (s.pstate n) = true
  fails_reaped : ∀ n, n ∈ s.fails → n ∈ s.reaped
  fails_iff : ∀ n, n ∈ s.reaped →
    (n ∈ s.fails ↔ s.pstate n ≠ PState.exited true)
  failed_dep_unblocked : ∀ X, X ∈ s.fails → ∀ S, S ∈ cfg.steps →
    X ∈ runDeps cfg S → s.pstate S ≠ PState.blocked
  invoked_deps : ∀ S, S ∈ cfg.steps →
    buildInvoked (s.pstate S) = true → ∀ E, E ∈ runDeps cfg S →
    E ∈ s.reaped ∧ E ∉ s.fails

lemma schedInv_init (cfg : BuildCfg) : SchedInv cfg (initState cfg) where
  waits_deps := fun _ _ _ hn => hn
  removed_reaped := fun _ _ _ hn hn2 => absurd hn hn2
  event_of_empty := fun S _ h => by simp [initState] at h ⊢; exact h
  empty_of_event := fun S _ h => by simp [initState] at h ⊢; exact h
  reaped_steps := fun n h => absurd h (List.not_mem_nil n)
  reaped_done := fun n h => absurd h (List.not_mem_nil n)
  fails_reaped := fun n h => absurd h (List.not_mem_nil n)
  fails_iff := fun n h => absurd h (List.not_mem_nil n)
  failed_dep_unblocked := fun X hX => absurd hX (List.not_mem_nil X)
  invoked_deps := fun S _ h => by simp [initState, buildInvoked] at h

/-- One scheduler transition preserves the invariant. -/
lemma schedInv_step {cfg : BuildCfg} (hnd : cfg.steps.Nodup)
    {s s' : BState} (hinv : SchedInv cfg s) (hstep : BStep cfg s s') :
    SchedInv cfg s' := by
  cases hstep with
  | start S hS hb he =>
    have hSnr : S ∉ s.reaped := fun hr => by
      have hdone := hinv.reaped_done S hr
      rw [hb] at hdone
      simp [doneB] at hdone
    refine
      { waits_deps := hinv.waits_deps
        removed_reaped := hinv.removed_reaped
        event_of_empty := hinv.event_of_empty
        empty_of_event := hinv.empty_of_event
        reaped_steps := hinv.reaped_steps
        reaped_done := ?_
        fails_reaped := hinv.fails_reaped
        fails_iff := ?_
        failed_dep_unblocked := ?_
        invoked_deps := ?_ }
    · intro n hn
      have hne : n ≠ S := by rintro rfl; exact hSnr hn
      show doneB (Function.update s.pstate S PState.building n) = true
      rw [Function.update_noteq hne]
      exact hinv.reaped_done n hn
    · intro n hn
      have hne : n ≠ S := by rintro rfl; exact hSnr hn
      show n ∈ s.fails ↔
        Function.update s.pstate S PState.building n ≠ PState.exited true
      rw [Function.update_noteq hne]
      exact hinv.fails_iff n hn
    · intro X hX S2 hS2 hdep
      show Function.update s.pstate S PState.building S2 ≠ PState.blocked
      by_cases h2 : S2 = S
      · subst h2; rw [Function.update_same]; simp
      · rw [Function.update_noteq h2]
        exact hinv.failed_dep_unblocked X hX S2 hS2 hdep
    · intro S2 hS2 hinvk E hE
      by_cases h2 : S2 = S
      · subst h2
        have hempty := hinv.empty_of_event S2 hS2 he
        have hre : E ∈ s.reaped :=
          hinv.removed_reaped S2 hS2 E hE
            (by rw [hempty]; exact List.not_mem_nil E)
        refine ⟨hre, fun hEf => ?_⟩
        exact hinv.failed_dep_unblocked E hEf S2 hS2 hE hb
      · have hinvk' :
            buildInvoked (Function.update s.pstate S PState.building S2) =
              true := hinvk
        rw [Function.update_noteq h2] at hinvk'
        exact hinv.invoked_deps S2 hS2 hinvk' E hE
  | finish S hS hb =>
    have hSnr : S ∉ s.reaped := fun hr => by
      have hdone := hinv.reaped_done S hr
      rw [hb] at hdone
      simp [doneB] at hdone
    refine
      { waits_deps := hinv.waits_deps
        removed_reaped := hinv.removed_reaped
        event_of_empty := hinv.event_of_empty
        empty_of_event := hinv.empty_of_event
        reaped_steps := hinv.reaped_steps
        reaped_done := ?_
        fails_reaped := hinv.fails_reaped
        fails_iff := ?_
        failed_dep_unblocked := ?_
        invoked_deps := ?_ }
    · intro n hn
      have hne : n ≠ S := by rintro rfl; exact hSnr hn
      show doneB
        (Function.update s.pstate S (PState.exited (cfg.buildOk S)) n) = true
      rw [Function.update_noteq hne]
      exact hinv.reaped_done n hn
    · intro n hn
      have hne : n ≠ S := by rintro rfl; exact hSnr hn
      show n ∈ s.fails ↔
        Function.update s.pstate S (PState.exited (cfg.buildOk S)) n ≠
          PState.exited true
      rw [Function.update_noteq hne]
      exact hinv.fails_iff n hn
    · intro X hX S2 hS2 hdep
      show Function.update s.pstate S (PState.exited (cfg.buildOk S)) S2 ≠
        PState.blocked
      by_cases h2 : S2 = S
      · subst h2; rw [Function.update_same]; simp
      · rw [Function.update_noteq h2]
        exact hinv.failed_dep_unblocked X hX S2 hS2 hdep
    · intro S2 hS2 hinvk E hE
      by_cases h2 : S2 = S
      · subst h2
        have hpre : buildInvoked (s.pstate S2) = true := by rw [hb]; rfl
        exact hinv.invoked_deps S2 hS2 hpre E hE
      · have hinvk' :
            buildInvoked
              (Function.update s.pstate S (PState.exited (cfg.buildOk S))
                S2) = true := hinvk
        rw [Function.update_noteq h2] at hinvk'
        exact hinv.invoked_deps S2 hS2 hinvk' E hE
  | reap D ok hD hnr hex =>
    have hr' : (reapUpdate cfg D ok s).reaped = s.reaped ++ [D] :=
      reapUpdate_reaped cfg D ok s
    have hf' : (reapUpdate cfg D ok s).fails =
        (if ok then s.fails else s.fails ++ [D]) :=
      reapUpdate_fails cfg D ok s
    have hDdone : doneB (s.pstate D) = true := exitOf_done hex
    refine
      { waits_deps := ?_
        removed_reaped := ?_
        event_of_empty := ?_
        empty_of_event := ?_
        reaped_steps := ?_
        reaped_done := ?_
        fails_reaped := ?_
        fails_iff := ?_
        failed_dep_unblocked := ?_
        invoked_deps := ?_ }
    · intro S hS n hn
      rw [reapUpdate_waits cfg D ok s hnd hS] at hn
      exact hinv.waits_deps S hS n (mem_of_mem_waitsAfter hn)
    · intro S hS n hnd2 hnot
      rw [reapUpdate_waits cfg D ok s hnd hS] at hnot
      rw [hr']
      by_cases hmem : n ∈ s.waits S
      · have hn : n = D := eq_of_not_mem_waitsAfter hmem hnot
        subst hn
        exact List.mem_append_right _ (List.mem_singleton.mpr rfl)
      · exact List.mem_append_left _ (hinv.removed_reaped S hS n hnd2 hmem)
    · intro S hS hempty
      rw [reapUpdate_waits cfg D ok s hnd hS] at hempty
      rw [reapUpdate_events cfg D ok s hnd hS, hempty]
      cases hevb : s.events S <;> simp [hevb]
    · intro S hS hev
      rw [reapUpdate_waits cfg D ok s hnd hS]
      rw [reapUpdate_events cfg D ok s hnd hS] at hev
      split at hev
      · rename_i hcond
        exact hcond.1
      · rw [hinv.empty_of_event S hS hev, waitsAfter_nil]
    · intro n hn
      rw [hr'] at hn
      rcases List.mem_append.mp hn with h1 | h1
      · exact hinv.reaped_steps n h1
      · rw [List.mem_singleton.mp h1]; exact hD
    · intro n hn
      rw [hr'] at hn
      rcases List.mem_append.mp hn with h1 | h1
      · have hnS : n ∈ cfg.steps := hinv.reaped_steps n h1
        rw [reapUpdate_pstate cfg D ok s hnd hnS,
            pstateAfter_of_mem_r (List.mem_append_left _ h1)]
        exact hinv.reaped_done n h1
      · have hnD := List.mem_singleton.mp h1
        subst hnD
        rw [reapUpdate_pstate cfg n ok s hnd hD,
            pstateAfter_of_mem_r
              (List.mem_append_right _ (List.mem_singleton.mpr rfl))]
        exact hDdone
    · intro n hn
      rw [hf'] at hn
      rw [hr']
      split at hn
      · exact List.mem_append_left _ (hinv.fails_reaped n hn)
      · rcases List.mem_append.mp hn with h1 | h1
        · exact List.mem_append_left _ (hinv.fails_reaped n h1)
        · exact List.mem_append_right _ h1
    · intro n hn
      rw [hr'] at hn
      rcases List.mem_append.mp hn with h1 | h1
      · have hne : n ≠ D := by rintro rfl; exact hnr h1
        have hnS : n ∈ cfg.steps := hinv.reaped_steps n h1
        rw [reapUpdate_pstate cfg D ok s hnd hnS,
            pstateAfter_of_mem_r (List.mem_append_left _ h1), hf']
        have hmemiff :
            n ∈ (if ok then s.fails else s.fails ++ [D]) ↔ n ∈ s.fails := by
          split
          · exact Iff.rfl
          · rw [List.mem_append]
            simp [List.mem_singleton, hne]
        rw [hmemiff]
        exact hinv.fails_iff n h1
      · have hnD := List.mem_singleton.mp h1
        subst hnD
        rw [reapUpdate_pstate cfg n ok s hnd hD,
            pstateAfter_of_mem_r
              (List.mem_append_right _ (List.mem_singleton.mpr rfl)), hf']
        have hDnf : n ∉ s.fails := fun h => hnr (hinv.fails_reaped n h)
        cases ok with
        | false =>
          have hfe : (if (false : Bool) then s.fails else s.fails ++ [n]) =
              s.fails ++ [n] := by simp
          rw [hfe]
          constructor
          · intro _; exact exitOf_false_ne hex
          · intro _
            exact List.mem_append_right _ (List.mem_singleton.mpr rfl)
        | true =>
          have hfe : (if (true : Bool) then s.fails else s.fails ++ [n]) =
              s.fails := by simp
          rw [hfe]
          have hpD := exitOf_true hex
          constructor
          · intro h; exact absurd h hDnf
          · intro hne2; exact absurd hpD hne2
    · intro X hX S hS hdep
      rw [reapUpdate_pstate cfg D ok s hnd hS]
      rcases pstateAfter_cases D ok (s.reaped ++ [D]) S (s.waits S)
          (s.pstate S) with ⟨hneg, hc⟩ | ⟨_, _, _, hc⟩
      · rw [hc]
        rw [hf'] at hX
        have hXor : X ∈ s.fails ∨ (ok = false ∧ X = D) := by
          split at hX
          · exact Or.inl hX
          · rcases List.mem_append.mp hX with h1 | h1
            · exact Or.inl h1
            · rename_i hok
              exact Or.inr ⟨by simpa using hok, List.mem_singleton.mp h1⟩
        rcases hXor with h1 | ⟨hok, hXD⟩
        · exact hinv.failed_dep_unblocked X h1 S hS hdep
        · subst hXD
          by_cases hw : X ∈ s.waits S
          · have hSr : S ∈ s.reaped ++ [X] := by
              by_contra hSr
              exact hneg ⟨hw, hok, hSr⟩
            rcases List.mem_append.mp hSr with h2 | h2
            · exact doneB_ne_blocked (hinv.reaped_done S h2)
            · have hSD := List.mem_singleton.mp h2
              rw [hSD]
              exact doneB_ne_blocked hDdone
          · exact absurd (hinv.removed_reaped S hS X hdep hw) hnr
      · rw [hc]
        exact terminateP_ne_blocked _
    · intro S hS hinvk E hE
      have hinvk' :
          buildInvoked
            (pstateAfter D ok (s.reaped ++ [D]) S (s.waits S)
              (s.pstate S)) = true := by
        rw [← reapUpdate_pstate cfg D ok s hnd hS]; exact hinvk
      have hpre : buildInvoked (s.pstate S) = true := by
        rcases pstateAfter_cases D ok (s.reaped ++ [D]) S (s.waits S)
            (s.pstate S) with ⟨_, hc⟩ | ⟨_, _, _, hc⟩
        · rw [hc] at hinvk'; exact hinvk'
        · rw [hc] at hinvk'; exact buildInvoked_terminateP hinvk'
      obtain ⟨hEre, hEnf⟩ := hinv.invoked_deps S hS hpre E hE
      have hEne : E ≠ D := by rintro rfl; exact hnr hEre
      constructor
      · rw [hr']; exact List.mem_append_left _ hEre
      · rw [hf']
        split
        · exact hEnf
        · intro hmem
          rcases List.mem_append.mp hmem with h1 | h1
          · exact hEnf h1
          · exact hEne (List.mem_singleton.mp h1)

/-- Every reachable scheduler state satisfies the invariant. -/
lemma reachable_inv {cfg : BuildCfg} (hnd : cfg.steps.Nodup) {s : BState}
    (hr : Reachable cfg s) : SchedInv cfg s := by
  unfold Reachable at hr
  induction hr with
  | refl => exact schedInv_init cfg
  | tail _ hstep ih => exact schedInv_step hnd ih hstep

/-- Claim C1: for every run and every pair of steps S and D with D a
run-restricted dependency of S, S's build function is invoked only after
D's process has terminated with success (exit 0) and been observed by the
parent; and every step whose run-restricted dependency set is empty has
its readiness event already set in the post-setup state, while its own
process is still blocked before its build function. -/
theorem C1_dependency_ordering (cfg : BuildCfg) (s : BState)
    (S D : String) (hnd : cfg.steps.Nodup) (hr : Reachable cfg s)
    (hS : S ∈ cfg.steps) :
    (buildInvoked (s.pstate S) = true → D ∈ runDeps cfg S →
      s.pstate D = PState.exited true ∧ D ∈ s.reaped) ∧
    (runDeps cfg S = [] →
      (initState cfg).events S = true ∧
      (initState cfg).pstate S = PState.blocked) := by
  have hinv := reachable_inv hnd hr
  constructor
  · intro hinvk hD
    obtain ⟨hre, hnf⟩ := hinv.invoked_deps S hS hinvk D hD
    have hiff := hinv.fails_iff D hre
    have hpD : s.pstate D = PState.exited true := by
      by_contra hne
      exact hnf (hiff.mpr hne)
    exact ⟨hpD, hre⟩
  · intro hempty
    constructor
    · show decide (runDeps cfg S = []) = true
      rw [hempty]; decide
    · rfl

/-- Example run for the witnesses of C1: steps a and b, b waits on a,
builds succeed. -/
def cfgAB : BuildCfg :=
  { steps := ["a", "b"],
    deps := fun n => if n = "b" then ["a"] else [],
    buildOk := fun _ => true }

def sAB1 : BState :=
  { initState cfgAB with
    pstate := Function.update (initState cfgAB).pstate "a" PState.building }

def sAB2 : BState :=
  { sAB1 with
    pstate := Function.update sAB1.pstate "a" (PState.exited true) }

def sAB3 : BState := reapUpdate cfgAB "a" true sAB2

def sAB4 : BState :=
  { sAB3 with
    pstate := Function.update sAB3.pstate "b" PState.building }

lemma reach_sAB4 : Reachable cfgAB sAB4 := by
  have h1 : BStep cfgAB (initState cfgAB) sAB1 :=
    BStep.start (initState cfgAB) "a" (by decide) rfl (by decide)
  have h2 : BStep cfgAB sAB1 sAB2 :=
    BStep.finish sAB1 "a" (by decide) (by decide)
  have h3 : BStep cfgAB sAB2 sAB3 :=
    BStep.reap sAB2 "a" true (by decide) (by decide) (by decide)
  have h4 : BStep cfgAB sAB3 sAB4 :=
    BStep.start sAB3 "b" (by decide) (by decide) (by decide)
  exact Relation.ReflTransGen.tail
    (Relation.ReflTransGen.tail
      (Relation.ReflTransGen.tail
        (Relation.ReflTransGen.tail Relation.ReflTransGen.refl h1) h2) h3) h4

/-- Witness for C1: in the run a <- b with a succeeding, in the reachable
state where b's build function has just been invoked, a's process has
exited successfully and been reaped; and a, with no dependencies, starts
with its event already set while its process is still blocked. -/
theorem C1_dependency_ordering_witness :
    sAB4.pstate "a" = PState.exited true ∧ "a" ∈ sAB4.reaped ∧
    (initState cfgAB).events "a" = true ∧
    (initState cfgAB).pstate "a" = PState.blocked := by
  have hb := (C1_dependency_ordering cfgAB sAB4 "b" "a" (by decide)
    reach_sAB4 (by decide)).1 (by decide) (by decide)
  have ha := (C1_dependency_ordering cfgAB sAB4 "a" "x" (by decide)
    reach_sAB4 (by decide)).2 (by decide)
  exact ⟨hb.1, hb.2, ha.1, ha.2⟩

/-- Claim C2: when a step A is in the failure list, every step B of the
run depending on A directly or transitively (through run steps) was
forcibly terminated before its build function ever ran (killed false -
so it never produces a successful result), B's name is in the final
failure report, and the run exits non-zero regardless of the cleanup
flag.  Stated for any terminal reachable state, i.e. after the join
loop has reaped every process. -/
theorem C2_failure_cascade (cfg : BuildCfg) (s : BState) (A B : String)
    (hnd : cfg.steps.Nodup) (hr : Reachable cfg s) (ht : Terminal cfg s)
    (hA : A ∈ s.fails) (hB : B ∈ cfg.steps) (hdep : TransDep cfg B A) :
    s.pstate B = PState.killed false ∧ B ∈ s.fails ∧
    (∀ cleanupFlag : Bool,
      buildFinish s.fails cleanupFlag = (cleanupFlag, some 1)) := by
  have hinv := reachable_inv hnd hr
  have key : ∀ X, X ∈ s.fails → ∀ S2, S2 ∈ cfg.steps →
      X ∈ runDeps cfg S2 →
      s.pstate S2 = PState.killed false ∧ S2 ∈ s.fails := by
    intro X hX S2 hS2 hdep2
    have hnb := hinv.failed_dep_unblocked X hX S2 hS2 hdep2
    have hre : S2 ∈ s.reaped := ht S2 hS2
    have hdone := hinv.reaped_done S2 hre
    have hnotinv : ¬ buildInvoked (s.pstate S2) = true := by
      intro hinvk
      obtain ⟨_, hnf⟩ := hinv.invoked_deps S2 hS2 hinvk X hdep2
      exact hnf hX
    have hps : s.pstate S2 = PState.killed false := by
      cases hps : s.pstate S2 with
      | blocked => exact absurd hps hnb
      | building => rw [hps] at hdone; simp [doneB] at hdone
      | exited b => rw [hps] at hnotinv; simp [buildInvoked] at hnotinv
      | killed rb =>
        cases rb with
        | false => rfl
        | true => rw [hps] at hnotinv; simp [buildInvoked] at hnotinv
    refine ⟨hps, ?_⟩
    exact (hinv.fails_iff S2 hre).mpr (by rw [hps]; simp)
  have hmain : ∀ B2 A2, TransDep cfg B2 A2 → A2 ∈ s.fails →
      B2 ∈ cfg.steps →
      s.pstate B2 = PState.killed false ∧ B2 ∈ s.fails := by
    intro B2 A2 hdep2
    induction hdep2 with
    | direct hBA => intro hA2 hB2; exact key _ hA2 _ hB2 hBA
    | step hCB hCA ih =>
      intro hA2 hB2
      have hC := ih hA2 (runDeps_subset_steps hCB)
      exact key _ hC.2 _ hB2 hCB
  obtain ⟨h1, h2⟩ := hmain B A hdep hA hB
  refine ⟨h1, h2, fun cleanupFlag => ?_⟩
  have hne : s.fails ≠ [] := fun h => by
    rw [h] at hA; exact List.not_mem_nil A hA
  have hie : s.fails.isEmpty = false := by
    cases hfl : s.fails with
    | nil => exact absurd hfl hne
    | cons x xs => rfl
  simp [buildFinish, hie]

/-- Example run for the witness of C2: steps a and b, b waits on a, and
a's build function fails. -/
def cfgF : BuildCfg :=
  { steps := ["a", "b"],
    deps := fun n => if n = "b" then ["a"] else [],
    buildOk := fun _ => false }

def sF1 : BState :=
  { initState cfgF with
    pstate := Function.update (initState cfgF).pstate "a" PState.building }

def sF2 : BState :=
  { sF1 with
    pstate := Function.update sF1.pstate "a" (PState.exited false) }

def sF3 : BState := reapUpdate cfgF "a" false sF2

def sF4 : BState := reapUpdate cfgF "b" false sF3

lemma reach_sF4 : Reachable cfgF sF4 := by
  have h1 : BStep cfgF (initState cfgF) sF1 :=
    BStep.start (initState cfgF) "a" (by decide) rfl (by decide)
  have h2 : BStep cfgF sF1 sF2 :=
    BStep.finish sF1 "a" (by decide) (by decide)
  have h3 : BStep cfgF sF2 sF3 :=
    BStep.reap sF2 "a" false (by decide) (by decide) (by decide)
  have h4 : BStep cfgF sF3 sF4 :=
    BStep.reap sF3 "b" false (by decide) (by decide) (by decide)
  exact Relation.ReflTransGen.tail
    (Relation.ReflTransGen.tail
      (Relation.ReflTransGen.tail
        (Relation.ReflTransGen.tail Relation.ReflTransGen.refl h1) h2) h3) h4

/-- Witness for C2: in the run a <- b where a fails, at the terminal
state b was terminated before its build ran, b is in the failure report
and the run exits 1. -/
theorem C2_failure_cascade_witness :
    sF4.pstate "b" = PState.killed false ∧ "b" ∈ sF4.fails ∧
    buildFinish sF4.fails true = (true, some 1) := by
  have hterm : Terminal cfgF sF4 := by
    have h : ∀ n ∈ cfgF.steps, n ∈ sF4.reaped := by decide
    exact h
  have h := C2_failure_cascade cfgF sF4 "a" "b" (by decide) reach_sF4
    hterm (by decide) (by decide) (TransDep.direct (by decide))
  exact ⟨h.1, h.2.1, h.2.2 true⟩
